import Mathlib

/-!
# Verification of the agent-observability-kit trace viewer and capture engine

Shallow embedding of the repository's presentation layer
(`src/server/static/trace-viewer.js`, the trace-list dashboard script) and,
where the repository ships no engine code, a model of the capture/storage
engine built from the specification's words (each such definition is marked
`Modelled from the spec:`).

Conventions: wall-clock timestamps and durations are `Nat` milliseconds;
JSON string payloads are `String`; DOM writes are modelled as values of
explicit view types recording exactly what the scripts interpolate into
`innerHTML`.
-/

namespace AgentObs

/-! ## Presentation-layer data model (JSON shapes served by the Query Service) -/

/-- Span status as serialized in trace JSON: one of running, success, error. -/
inductive SpanStatus
  | running
  | success
  | error
deriving DecidableEq, Repr

/-- One LLM-call record attached to a span
(`{model, prompt, response, tokens:{input,output}, latency_ms, cost?}`). -/
structure LLMCall where
  model : String
  prompt : String
  response : String
  tokensInput : Nat
  tokensOutput : Nat
  latency_ms : Nat
  cost : Option Nat
deriving DecidableEq, Repr

/-- A span as served by `GET /api/trace/{trace_id}` and consumed by
`trace-viewer.js`. -/
structure Span where
  span_id : String
  parent_span_id : Option String
  trace_id : String
  name : String
  span_type : String
  start_time : Nat
  end_time : Nat
  duration_ms : Nat
  status : SpanStatus
  inputs : String
  outputs : String
  llm_calls : List LLMCall
  error : Option String
  error_type : Option String
  metadata : String
deriving DecidableEq, Repr

/-- Stored aggregate metadata of a trace record. -/
structure TraceMetadata where
  span_count : Nat
  total_duration_ms : Nat
  status : SpanStatus
  agent_id : Option String
  framework : Option String
deriving DecidableEq, Repr

/-- A full trace record as served by `GET /api/trace/{trace_id}`. -/
structure Trace where
  trace_id : String
  name : Option String
  spans : List Span
  metadata : TraceMetadata
deriving DecidableEq, Repr

/-- A summary projection as served by `GET /api/traces`
(`{trace_id, name, status, span_count, total_duration_ms, start_time,
agent_id?, framework?}`). -/
structure TraceSummary where
  trace_id : String
  name : Option String
  status : String
  span_count : Nat
  total_duration_ms : Nat
  start_time : Nat
  agent_id : Option String
  framework : Option String
deriving DecidableEq, Repr

/-- JavaScript truthiness of an optional string field: `undefined` and the
empty string are falsy, every other string is truthy. -/
def jsTruthy : Option String → Bool
  | none => false
  | some s => !(s == "")

/-! ## Sorting spans by start time

Both `renderExecutionGraph` and `renderSpanList` call
`spans.sort((a, b) => new Date(a.start_time) - new Date(b.start_time))`
before mapping to HTML, an ascending sort on `start_time`.  We model the
sort as an insertion sort (JS `Array.prototype.sort` is a stable
comparison sort; only sortedness and the permutation property matter to
the claims). -/

/-- Insert a span into a list assumed sorted by ascending `start_time`,
after any element whose `start_time` is not greater (stable placement). -/
def insertByStart (s : Span) : List Span → List Span
  | [] => [s]
  | t :: ts =>
      if t.start_time ≤ s.start_time then t :: insertByStart s ts
      else s :: t :: ts

/-- The ascending-by-`start_time` sort performed by the viewer's
`.sort((a, b) => new Date(a.start_time) - new Date(b.start_time))`. -/
def sortSpansByStart : List Span → List Span
  | [] => []
  | s :: ss => insertByStart s (sortSpansByStart ss)

/-! ## Trace detail viewer (`src/server/static/trace-viewer.js`) -/

/-- Render a `SpanStatus` the way the JSON serialization spells it. -/
def statusStr : SpanStatus → String
  | .running => "running"
  | .success => "success"
  | .error => "error"

/-- JS `optionalString || fallbackString`. -/
def jsStrOr (o : Option String) (d : String) : String :=
  if jsTruthy o then o.getD d else d

/-- What `renderTraceMetadata` interpolates into the `trace-metadata` grid
(plus the two header writes it performs first). -/
structure TraceMetaView where
  title : String
  traceId : String
  statusClass : String
  statusLabel : String
  totalDuration : Nat
  spanCount : Nat
  firstStart : Option Nat
  agent : Option String
  framework : Option String
deriving DecidableEq, Repr

/-- `renderTraceMetadata` of `trace-viewer.js`: the status shown is
`spans.some(s => s.status === 'error') ? 'error' : 'success'` (label
capitalized), duration and span count come from the stored `metadata`
object, the start time from `spans[0]`, and the agent/framework rows are
emitted only when truthy. -/
def renderTraceMetadata (t : Trace) : TraceMetaView :=
  { title := jsStrOr t.name "Trace"
    traceId := t.trace_id
    statusClass :=
      if t.spans.any (fun s => s.status == SpanStatus.error) then "error" else "success"
    statusLabel :=
      if t.spans.any (fun s => s.status == SpanStatus.error) then "Error" else "Success"
    totalDuration := t.metadata.total_duration_ms
    spanCount := t.metadata.span_count
    firstStart := t.spans.head?.map (fun s => s.start_time)
    agent := if jsTruthy t.metadata.agent_id then t.metadata.agent_id else none
    framework := if jsTruthy t.metadata.framework then t.metadata.framework else none }

/-- Modelled from the spec: the aggregate trace status as a pure function of
the spans alone — "overall `status` (error if any span errored, else
success)". -/
def specAggregateStatus (spans : List Span) : String :=
  if spans.any (fun s => s.status == SpanStatus.error) then "error" else "success"

/-- What `renderSpanNode` (inside `renderExecutionGraph`) interpolates into
one `span-node` div of the execution graph. -/
structure SpanNodeView where
  statusClass : String
  icon : String
  spanId : String
  name : String
  span_type : String
  duration_ms : Nat
  llmCallBadge : Option Nat
deriving DecidableEq, Repr

/-- `renderSpanNode` of `trace-viewer.js`: class and icon are two-valued —
`span.status === 'error' ? 'error' : 'success'` and 🔴 vs 🟢 — and the LLM
badge appears only when `span.llm_calls.length > 0`. -/
def renderSpanNode (s : Span) : SpanNodeView :=
  { statusClass := if s.status == SpanStatus.error then "error" else "success"
    icon := if s.status == SpanStatus.error then "🔴" else "🟢"
    spanId := s.span_id
    name := s.name
    span_type := s.span_type
    duration_ms := s.duration_ms
    llmCallBadge := if s.llm_calls.length > 0 then some s.llm_calls.length else none }

/-- What `renderSpanList` interpolates into one row of the span list. -/
structure SpanRowView where
  statusClass : String
  spanId : String
  name : String
  span_type : String
  duration_ms : Nat
  start_time : Nat
deriving DecidableEq, Repr

/-- One row of `renderSpanList` in `trace-viewer.js`: the status class is
again `span.status === 'error' ? 'error' : 'success'`. -/
def renderSpanRow (s : Span) : SpanRowView :=
  { statusClass := if s.status == SpanStatus.error then "error" else "success"
    spanId := s.span_id
    name := s.name
    span_type := s.span_type
    duration_ms := s.duration_ms
    start_time := s.start_time }

/-- `renderExecutionGraph` of `trace-viewer.js`: sorts the spans ascending by
`start_time` and maps each to a `span-node` div. -/
def renderExecutionGraph (t : Trace) : List SpanNodeView :=
  (sortSpansByStart t.spans).map renderSpanNode

/-- `renderSpanList` of `trace-viewer.js`: same ascending sort by
`start_time`, mapped to list rows. -/
def renderSpanList (t : Trace) : List SpanRowView :=
  (sortSpansByStart t.spans).map renderSpanRow

/-- Parsed JSON body of the trace endpoint: either an error object with an
`error` field (as returned for an unknown trace id), or a full trace
record. -/
inductive TraceBody
  | errBody (msg : String)
  | traceBody (t : Trace)
deriving DecidableEq, Repr

/-- Outcome of the `fetch` + `response.json()` pair in `loadTrace`:
the fetch can reject, the body can fail to parse as JSON, or a JSON body is
produced. -/
inductive ViewerFetch
  | reject (msg : String)
  | badJSON (msg : String)
  | ok (body : TraceBody)
deriving DecidableEq, Repr

/-- Final content of the trace-detail page after `loadTrace` runs: either a
`div.error-message` written into `trace-metadata`, or the three rendered
sections. -/
inductive ViewerView
  | errorDiv (msg : String)
  | rendered (meta : TraceMetaView) (graph : List SpanNodeView) (rows : List SpanRowView)
deriving DecidableEq, Repr

/-- The `TypeError` message raised inside `renderTraceMetadata` when the
parsed body has no `spans` array (e.g. `error` present but falsy); it is
caught by the surrounding try of `loadTrace`. -/
def spansUndefinedMsg : String := "Cannot read properties of undefined"

/-- `loadTrace` of `trace-viewer.js` as a total function on fetch outcomes:
a rejected fetch or unparsable body falls into the catch block, which writes
an `Error loading trace:` message; a body whose `error` field is truthy is
rendered as a bare error div; otherwise the three sections render (a
non-trace error body with falsy `error` throws a `TypeError` on
`spans[0]`, also landing in the catch). -/
def loadTrace : ViewerFetch → ViewerView
  | .reject m => .errorDiv ("Error loading trace: " ++ m)
  | .badJSON m => .errorDiv ("Error loading trace: " ++ m)
  | .ok (.errBody m) =>
      if jsTruthy (some m) then .errorDiv m
      else .errorDiv ("Error loading trace: " ++ spansUndefinedMsg)
  | .ok (.traceBody t) =>
      .rendered (renderTraceMetadata t) (renderExecutionGraph t) (renderSpanList t)

/-- Content of the span-detail modal written by `showSpanDetail`. -/
structure SpanDetailView where
  name : String
  spanId : String
  span_type : String
  statusName : String
  duration_ms : Nat
  inputs : String
  outputs : String
  llmCalls : List LLMCall
  errorSection : Option (String × String)
  metadataJSON : String
deriving DecidableEq, Repr

/-- The modal body `showSpanDetail` builds for a found span: the error
section is emitted only when `span.error` is truthy, and shows
`error_type` and `error`. -/
def spanDetailOf (s : Span) : SpanDetailView :=
  { name := s.name
    spanId := s.span_id
    span_type := s.span_type
    statusName := statusStr s.status
    duration_ms := s.duration_ms
    inputs := s.inputs
    outputs := s.outputs
    llmCalls := s.llm_calls
    errorSection :=
      if jsTruthy s.error then some (s.error_type.getD "undefined", s.error.getD "")
      else none
    metadataJSON := s.metadata }

/-- Mutable page state of the trace-detail viewer: the loaded trace, whether
the span modal carries the `active` class, and the modal's content. -/
structure ViewerPage where
  trace : Trace
  modalActive : Bool
  modalContent : Option SpanDetailView
deriving DecidableEq, Repr

/-- `showSpanDetail(spanId)` of `trace-viewer.js`: finds the span by id in
`currentTrace.spans`; on no match it returns before touching the modal; on a
match it fills the modal content and adds the `active` class. -/
def showSpanDetail (p : ViewerPage) (spanId : String) : ViewerPage :=
  match p.trace.spans.find? (fun s => s.span_id == spanId) with
  | none => p
  | some s => { p with modalActive := true, modalContent := some (spanDetailOf s) }

/-! ## Trace list dashboard (the main-page script) -/

/-- Parsed JSON body of `GET /api/traces` as the dashboard sees it: either an
array of summaries, or some non-array value (such as an `error` object) on
which `.filter` throws a `TypeError` with the given message. -/
inductive TracesBody
  | arr (summaries : List TraceSummary)
  | notArr (typeErrMsg : String)
deriving DecidableEq, Repr

/-- Outcome of the `fetch` + `response.json()` pair in `loadTraces`. -/
inductive ListFetch
  | reject (msg : String)
  | badJSON (msg : String)
  | ok (body : TracesBody)
deriving DecidableEq, Repr

/-- One `trace-item` div of the dashboard's trace list. -/
structure TraceItemView where
  trace_id : String
  name : String
  statusClass : String
  span_count : Nat
  total_duration_ms : Nat
  start_time : Nat
  agent : Option String
  framework : Option String
deriving DecidableEq, Repr

/-- One summary rendered as a `trace-item`: name falls back to
`Unnamed trace`, the status string is used verbatim as class and label, and
agent/framework only when truthy. -/
def renderTraceItem (t : TraceSummary) : TraceItemView :=
  { trace_id := t.trace_id
    name := jsStrOr t.name "Unnamed trace"
    statusClass := t.status
    span_count := t.span_count
    total_duration_ms := t.total_duration_ms
    start_time := t.start_time
    agent := if jsTruthy t.agent_id then t.agent_id else none
    framework := if jsTruthy t.framework then t.framework else none }

/-- Content of the `trace-list` element after `loadTraces` runs. -/
inductive TraceListView
  | errorDiv (msg : String)
  | noTracesPlaceholder
  | items (rows : List TraceItemView)
deriving DecidableEq, Repr

/-- The four stat counters the dashboard writes (success rate and average
duration are displayed as `successfulTraces / totalTraces` and
`durationSum / totalTraces`; we record the exact integer inputs of those
divisions). -/
structure DashStats where
  totalTraces : Nat
  successfulTraces : Nat
  durationSum : Nat
  totalSpans : Nat
deriving DecidableEq, Repr

/-- Result of one `loadTraces` run: what the `trace-list` element holds and
whether/what the stat counters were written. -/
structure DashboardView where
  traceList : TraceListView
  stats : Option DashStats
deriving DecidableEq, Repr

/-- `loadTraces` of the dashboard script as a total function on fetch
outcomes: an empty array renders the `No traces yet` placeholder and returns
before any stats update; a non-empty array updates the four counters and
renders the items; a rejected fetch, unparsable body, or non-array body (on
which `traces.filter` throws) lands in the catch block, which writes an
`Error loading traces:` message and never updates stats. -/
def loadTraces : ListFetch → DashboardView
  | .reject m => ⟨.errorDiv ("Error loading traces: " ++ m), none⟩
  | .badJSON m => ⟨.errorDiv ("Error loading traces: " ++ m), none⟩
  | .ok (.notArr m) => ⟨.errorDiv ("Error loading traces: " ++ m), none⟩
  | .ok (.arr l) =>
      if l.isEmpty then ⟨.noTracesPlaceholder, none⟩
      else
        ⟨.items (l.map renderTraceItem),
         some { totalTraces := l.length
                successfulTraces := (l.filter (fun t => t.status == "success")).length
                durationSum := (l.map (fun t => t.total_duration_ms)).sum
                totalSpans := (l.map (fun t => t.span_count)).sum }⟩

/-- Recognizer: does a viewer view show a visible error-message element? -/
def ViewerView.isErrorDiv : ViewerView → Bool
  | .errorDiv _ => true
  | _ => false

/-- Recognizer: does the trace-list element show a visible error-message
element? -/
def TraceListView.isErrorDiv : TraceListView → Bool
  | .errorDiv _ => true
  | _ => false

/-! ## Storage Backend and Query Service

The repository ships no storage or query code under src/ (only the
presentation scripts that consume them), so the following definitions are
modelled from the specification, §4.3–§4.4 and §6. -/

/-- Modelled from the spec: the summary projection `save` writes to the
index — `(trace_id, name, status, span_count, total_duration_ms,
start_time, agent_id, framework)` (§4.3; repository ships no storage
code). -/
def summaryOf (t : Trace) : TraceSummary :=
  { trace_id := t.trace_id
    name := t.name
    status := statusStr t.metadata.status
    span_count := t.metadata.span_count
    total_duration_ms := t.metadata.total_duration_ms
    start_time := (t.spans.head?.map (fun s => s.start_time)).getD 0
    agent_id := t.metadata.agent_id
    framework := t.metadata.framework }

/-- Modelled from the spec: Storage Backend state — full records addressable
by `trace_id` plus the index of summary projections (§4.3, §6; repository
ships no storage code). -/
structure StoreState where
  records : List (String × Trace)
  index : List TraceSummary
deriving DecidableEq, Repr

/-- A store with no traces. -/
def StoreState.emptyStore : StoreState := ⟨[], []⟩

/-- Modelled from the spec: `save(trace)` writes the full record durably,
keyed by `trace_id` (last-write-wins on a duplicate key), then updates the
index with the summary projection (§4.3; repository ships no storage
code). -/
def save (st : StoreState) (t : Trace) : StoreState :=
  { records := (t.trace_id, t) :: st.records.filter (fun p => !(p.1 == t.trace_id))
    index := summaryOf t :: st.index.filter (fun s1 => !(s1.trace_id == t.trace_id)) }

/-- Modelled from the spec: `load(trace_id)` returns the full trace record
or a not-found signal (§4.3; repository ships no storage code). -/
def load (st : StoreState) (tid : String) : Option Trace :=
  (st.records.find? (fun p => p.1 == tid)).map (fun p => p.2)

/-- Modelled from the spec: the Query Service `list_traces()` — a read-only
pass over the index returning all known summaries; the result pairs the
summaries with the (unchanged) store to make the absence of mutation
explicit (§4.4; repository ships no query-service code). -/
def list_traces (st : StoreState) : List TraceSummary × StoreState :=
  (st.index, st)

/-! ## Tracer capture engine

The repository also ships no Tracer code; the recording context below is
modelled from the specification §4.1/§5: per execution context a stack of
open spans, identifiers drawn from one monotone counter, a monotone wall
clock, and finalized traces handed off when a root span closes. -/

/-- Modelled from the spec: an engine-side span record (identifier fields
are the `Nat` ids the engine generates; payload fields inert). -/
structure MSpan where
  span_id : Nat
  parent_span_id : Option Nat
  trace_id : Nat
  name : String
  start_time : Nat
  end_time : Nat
  duration_ms : Nat
  status : SpanStatus
  inputs : String
  outputs : String
deriving DecidableEq, Repr

/-- Modelled from the spec: a finalized trace handed to the Storage
Backend — its `trace_id` and the closed spans collected for it. -/
structure MTrace where
  trace_id : Nat
  spans : List MSpan
deriving DecidableEq, Repr

/-- Modelled from the spec: per-execution-context recording state — the
stack of currently-open spans (top first) and the closed spans of the
in-flight trace awaiting finalization (§4.1). -/
structure CtxState where
  stack : List MSpan
  closed : List MSpan
deriving DecidableEq, Repr

/-- A context that has never opened a span (or whose trace was just
finalized). -/
def CtxState.init : CtxState := ⟨[], []⟩

/-- Modelled from the spec: the whole Tracer — a monotone wall clock, one
monotone counter generating fresh span/trace identifiers, the isolated
per-context states, and the finalized traces already handed off (§4.1,
§5). -/
structure TracerState where
  clock : Nat
  nextId : Nat
  ctxs : Nat → CtxState
  finished : List MTrace

/-- The Tracer before any instrumentation runs. -/
def TracerState.init : TracerState :=
  { clock := 0, nextId := 0, ctxs := fun _ => CtxState.init, finished := [] }

/-- Pointwise update of one context's state. -/
def setCtx (f : Nat → CtxState) (c : Nat) (v : CtxState) : Nat → CtxState :=
  fun c2 => if c2 = c then v else f c2

/-- Modelled from the spec: one instrumentation event — `start_span` or
`end_span` issued by execution context `ctx`, with the wall clock advancing
by `dt` milliseconds before the operation acts (§4.1). -/
inductive TEvent
  | start (ctx : Nat) (dt : Nat) (name : String) (inputs : String)
  | close (ctx : Nat) (dt : Nat) (st : SpanStatus) (outputs : String)
deriving DecidableEq, Repr

/-- The execution context issuing an event. -/
def TEvent.ctx : TEvent → Nat
  | .start c _ _ _ => c
  | .close c _ _ _ => c

/-- Whether an event opens (rather than closes) a span. -/
def TEvent.isStart : TEvent → Bool
  | .start _ _ _ _ => true
  | .close _ _ _ _ => false

/-- Modelled from the spec: closing stamps `end_time` from the wall clock,
derives `duration_ms`, and sets the final status and outputs (§4.1). -/
def closeSpan (top : MSpan) (now : Nat) (st : SpanStatus) (outs : String) : MSpan :=
  { top with end_time := now, duration_ms := now - top.start_time,
             status := st, outputs := outs }

/-- Modelled from the spec: one step of the Tracer state machine (§4.1).
`start_span` with an empty stack begins a new trace (fresh `trace_id`) and
the new span is its root; otherwise the parent is the top of the calling
context's stack.  `end_span` pops the top span, stamps `end_time`, computes
`duration_ms`, and — when the popped span was the root — finalizes the
owning trace and resets the context.  `end_span` on an empty stack is a
usage error: a diagnostic only, no state is corrupted. -/
def stepT (σ : TracerState) : TEvent → TracerState
  | .start c dt nm ins =>
      let now := σ.clock + dt
      let k := σ.ctxs c
      match k.stack with
      | [] =>
          let sp : MSpan :=
            { span_id := σ.nextId + 1, parent_span_id := none, trace_id := σ.nextId,
              name := nm, start_time := now, end_time := 0, duration_ms := 0,
              status := SpanStatus.running, inputs := ins, outputs := "" }
          { clock := now, nextId := σ.nextId + 2,
            ctxs := setCtx σ.ctxs c { stack := [sp], closed := k.closed },
            finished := σ.finished }
      | top :: rest =>
          let sp : MSpan :=
            { span_id := σ.nextId, parent_span_id := some top.span_id,
              trace_id := top.trace_id,
              name := nm, start_time := now, end_time := 0, duration_ms := 0,
              status := SpanStatus.running, inputs := ins, outputs := "" }
          { clock := now, nextId := σ.nextId + 1,
            ctxs := setCtx σ.ctxs c { stack := sp :: top :: rest, closed := k.closed },
            finished := σ.finished }
  | .close c dt st outs =>
      let now := σ.clock + dt
      let k := σ.ctxs c
      match k.stack with
      | [] => { σ with clock := now }
      | [top] =>
          { clock := now, nextId := σ.nextId,
            ctxs := setCtx σ.ctxs c CtxState.init,
            finished := σ.finished ++ [⟨top.trace_id, k.closed ++ [closeSpan top now st outs]⟩] }
      | top :: r :: rs =>
          { clock := now, nextId := σ.nextId,
            ctxs := setCtx σ.ctxs c
              { stack := r :: rs, closed := k.closed ++ [closeSpan top now st outs] },
            finished := σ.finished }

/-- Run the Tracer over a whole schedule of events. -/
def runT (evs : List TEvent) : TracerState :=
  evs.foldl stepT TracerState.init

/-! ### Derived views and well-formedness predicates used by the claims -/

/-- All spans a context currently owns (open and closed, in-flight). -/
def ctxSpans (k : CtxState) : List MSpan := k.stack ++ k.closed

/-- Span identifiers a context currently owns. -/
def spanIds (k : CtxState) : List Nat := (ctxSpans k).map (fun s => s.span_id)

/-- Trace identifiers a context currently owns (uniform across one
context's in-flight spans). -/
def traceIds (k : CtxState) : List Nat := (ctxSpans k).map (fun s => s.trace_id)

/-- Span identifiers of a finalized trace. -/
def finSpanIds (t : MTrace) : List Nat := t.spans.map (fun s => s.span_id)

/-- Open-span depth of one context. -/
def depthOf (σ : TracerState) (c : Nat) : Nat := ((σ.ctxs c).stack).length

/-- The open/close kinds of the events one context contributes to a
schedule, in order. -/
def projKinds (c : Nat) (evs : List TEvent) : List Bool :=
  (evs.filter (fun e => e.ctx == c)).map TEvent.isStart

/-- Number of traces a context finalizes when it runs the given kind
sequence starting at the given open-span depth (a close at depth 1 empties
the stack and finalizes; a close at depth 0 is the no-op usage error). -/
def finCount : Nat → List Bool → Nat
  | _, [] => 0
  | d, true :: l => finCount (d + 1) l
  | 0, false :: l => finCount 0 l
  | 1, false :: l => 1 + finCount 0 l
  | d + 2, false :: l => finCount (d + 1) l

/-- Stack discipline for the remainder of one context's kind sequence,
given its current depth: no close on an empty stack, and the sequence ends
exactly when the depth first returns to 0. -/
def blockAux : Nat → List Bool → Bool
  | d, [] => d == 0
  | d, true :: l => blockAux (d + 1) l
  | 0, false :: _ => false
  | 1, false :: l => l.isEmpty
  | d + 2, false :: l => blockAux (d + 1) l

/-- One complete, well-nested execution: the kind sequence is a single
balanced block (starts with an open, stays strictly nested, and its final
close is the last event). -/
def oneBlock : List Bool → Bool
  | true :: l => blockAux 1 l
  | _ => false

/-- One parent pointer of a finalized trace resolves inside the trace, to a
span with a strictly smaller identifier. -/
def parentOkB (spans : List MSpan) (s : MSpan) : Bool :=
  match s.parent_span_id with
  | none => true
  | some pid => decide (pid < s.span_id) && spans.any (fun p => p.span_id == pid)

/-- The spans of a finalized trace form a tree rooted at exactly one span:
exactly one parentless span, and every parent pointer resolves to another
span of the trace with a strictly smaller `span_id` (so every parent chain
descends to the unique root). -/
def isTraceTreeB (spans : List MSpan) : Bool :=
  ((spans.filter (fun s => s.parent_span_id == none)).length == 1) &&
  spans.all (fun s => parentOkB spans s)

/-- The open-span stack is a parent chain: the bottom span is the root
(no parent) and each open span's parent is the span directly beneath it,
span identifiers strictly increasing upward. -/
def stackChain : List MSpan → Prop
  | [] => True
  | [s] => s.parent_span_id = none
  | s :: t :: r => s.parent_span_id = some t.span_id ∧ t.span_id < s.span_id ∧ stackChain (t :: r)

/-- A closed in-flight span's parent pointer resolves among the context's
current spans, with a strictly smaller identifier. -/
def closedParentOk (k : CtxState) (s : MSpan) : Prop :=
  ∃ pid, s.parent_span_id = some pid ∧ pid < s.span_id ∧ pid ∈ spanIds k

/-- Identifier-health invariant of the modelled Tracer, preserved by every
step: identifiers stay below the fresh counter; a context with an empty
stack holds no closed spans; one context's in-flight spans share one trace
identifier, distinct from every other context's and from every finalized
trace's; span identifiers never repeat, within one context, across
contexts, or across finalized traces; each finalized trace is internally
consistent (uniform trace id, spans a rooted tree, span ids distinct); the
open stack is a parent chain and closed in-flight spans point at existing
parents with smaller identifiers. -/
structure EngineInv (σ : TracerState) : Prop where
  bound_sid : ∀ c, ∀ i ∈ spanIds (σ.ctxs c), i < σ.nextId
  bound_tid : ∀ c, ∀ i ∈ traceIds (σ.ctxs c), i < σ.nextId
  bound_fin_tid : ∀ t ∈ σ.finished, t.trace_id < σ.nextId
  bound_fin_sid : ∀ t ∈ σ.finished, ∀ i ∈ finSpanIds t, i < σ.nextId
  closed_of_empty : ∀ c, (σ.ctxs c).stack = [] → (σ.ctxs c).closed = []
  tid_uniform : ∀ c, ∀ i ∈ traceIds (σ.ctxs c), ∀ j ∈ traceIds (σ.ctxs c), i = j
  tid_cross : ∀ c c2, c ≠ c2 → ∀ i ∈ traceIds (σ.ctxs c), i ∉ traceIds (σ.ctxs c2)
  tid_fin_ctx : ∀ c, ∀ i ∈ traceIds (σ.ctxs c), ∀ t ∈ σ.finished, i ≠ t.trace_id
  tid_fin : σ.finished.Pairwise (fun t t2 => t.trace_id ≠ t2.trace_id)
  sid_nodup : ∀ c, (spanIds (σ.ctxs c)).Nodup
  sid_cross : ∀ c c2, c ≠ c2 → ∀ i ∈ spanIds (σ.ctxs c), i ∉ spanIds (σ.ctxs c2)
  sid_fin_ctx : ∀ c, ∀ i ∈ spanIds (σ.ctxs c), ∀ t ∈ σ.finished, i ∉ finSpanIds t
  sid_fin : σ.finished.Pairwise (fun t t2 => ∀ i ∈ finSpanIds t, i ∉ finSpanIds t2)
  sid_fin_nodup : ∀ t ∈ σ.finished, (finSpanIds t).Nodup
  fin_uniform : ∀ t ∈ σ.finished, ∀ s ∈ t.spans, s.trace_id = t.trace_id
  fin_tree : ∀ t ∈ σ.finished, isTraceTreeB t.spans = true
  chain : ∀ c, stackChain (σ.ctxs c).stack
  closed_parents : ∀ c, ∀ s ∈ (σ.ctxs c).closed, closedParentOk (σ.ctxs c) s

/-- A closed span's timing fields are consistent: a nonnegative interval
whose `duration_ms` is derived as `end_time - start_time`. -/
def spanTimingOk (s : MSpan) : Prop :=
  s.duration_ms = s.end_time - s.start_time ∧ s.start_time ≤ s.end_time

/-- Timing invariant of the Tracer: every open span started no later than
the current clock, and every already-closed span — still in flight or
already finalized — has consistent timing fields. -/
def ClockInv (σ : TracerState) : Prop :=
  (∀ c, ∀ s ∈ (σ.ctxs c).stack, s.start_time ≤ σ.clock) ∧
  (∀ c, ∀ s ∈ (σ.ctxs c).closed, spanTimingOk s) ∧
  (∀ t ∈ σ.finished, ∀ s ∈ t.spans, spanTimingOk s)

/-- A concrete interleaved schedule over two contexts: context 0 nests a
child span, and context 1 starts and closes its trace while both of
context 0's spans are still open. -/
def demoEvents2 : List TEvent :=
  [TEvent.start 0 1 "root0" "", TEvent.start 1 1 "root1" "",
   TEvent.start 0 1 "child0" "", TEvent.close 1 1 SpanStatus.success "",
   TEvent.close 0 1 SpanStatus.error "", TEvent.close 0 1 SpanStatus.success ""]

/-- A concrete two-event schedule: context 0 opens a root span at clock 5
and closes it successfully at clock 12. -/
def demoEvents : List TEvent :=
  [TEvent.start 0 5 "root" "", TEvent.close 0 7 SpanStatus.success ""]

/-- The closed root span that running `demoEvents` finalizes. -/
def demoClosedSpan : MSpan :=
  { span_id := 1, parent_span_id := none, trace_id := 0, name := "root",
    start_time := 5, end_time := 12, duration_ms := 7,
    status := SpanStatus.success, inputs := "", outputs := "" }

/-- A concrete span still in status running, used by witnesses. -/
def runningSpan : Span :=
  { span_id := "s1", parent_span_id := none, trace_id := "t1", name := "work",
    span_type := "tool-call", start_time := 5, end_time := 9, duration_ms := 4,
    status := SpanStatus.running, inputs := "", outputs := "",
    llm_calls := [], error := none, error_type := none, metadata := "" }

/-- A concrete loaded viewer page, used by witnesses. -/
def demoPage : ViewerPage :=
  { trace :=
      { trace_id := "t1", name := some "demo", spans := [runningSpan],
        metadata :=
          { span_count := 1, total_duration_ms := 4,
            status := SpanStatus.success, agent_id := none, framework := none } },
    modalActive := false, modalContent := none }

theorem insertByStart_perm (s : Span) (l : List Span) :
    List.Perm (insertByStart s l) (s :: l) := by
  induction l with
  | nil => simp [insertByStart]
  | cons t ts ih =>
      by_cases h : t.start_time ≤ s.start_time
      · simp only [insertByStart, if_pos h]
        exact (ih.cons t).trans (List.Perm.swap s t ts)
      · rw [insertByStart, if_neg h]

theorem sortSpansByStart_perm (l : List Span) :
    List.Perm (sortSpansByStart l) l := by
  induction l with
  | nil => simp [sortSpansByStart]
  | cons s ss ih =>
      exact (insertByStart_perm s (sortSpansByStart ss)).trans (ih.cons s)

theorem insertByStart_pairwise (s : Span) (l : List Span)
    (hl : l.Pairwise (fun a b => a.start_time ≤ b.start_time)) :
    (insertByStart s l).Pairwise (fun a b => a.start_time ≤ b.start_time) := by
  induction l with
  | nil => simp [insertByStart]
  | cons t ts ih =>
      rcases List.pairwise_cons.mp hl with ⟨ht, hts⟩
      by_cases h : t.start_time ≤ s.start_time
      · simp only [insertByStart, if_pos h]
        refine List.pairwise_cons.mpr ⟨?_, ih hts⟩
        intro x hx
        rcases List.mem_cons.mp ((insertByStart_perm s ts).mem_iff.mp hx) with hx | hx
        · simpa [hx] using h
        · exact ht x hx
      · simp only [insertByStart, if_neg h]
        refine List.pairwise_cons.mpr ⟨?_, hl⟩
        intro x hx
        have hst : s.start_time ≤ t.start_time := Nat.le_of_not_le h
        rcases List.mem_cons.mp hx with hx | hx
        · rw [hx]; exact hst
        · exact Nat.le_trans hst (ht x hx)

theorem sortSpansByStart_pairwise (l : List Span) :
    (sortSpansByStart l).Pairwise (fun a b => a.start_time ≤ b.start_time) := by
  induction l with
  | nil => simp [sortSpansByStart]
  | cons s ss ih => exact insertByStart_pairwise s (sortSpansByStart ss) ih

/-! ## Claim theorems -/

/-- C1: for every Query Service response signalling absence or failure — a
rejected fetch, a body that is not valid JSON, or a body carrying an
`error` field (the not-found shape; for the list endpoint, a non-array
body) — both the trace list page and the trace detail viewer render a
visible error-message element into the page instead of leaving the view
blank or throwing out of the load function (both load functions are total
and land every such case in an errorDiv). -/
theorem claim_C1_failure_renders_error_element :
    (∀ m : String, (loadTrace (ViewerFetch.reject m)).isErrorDiv = true) ∧
    (∀ m : String, (loadTrace (ViewerFetch.badJSON m)).isErrorDiv = true) ∧
    (∀ m : String,
      (loadTrace (ViewerFetch.ok (TraceBody.errBody m))).isErrorDiv = true) ∧
    (∀ m : String, (loadTraces (ListFetch.reject m)).traceList.isErrorDiv = true) ∧
    (∀ m : String, (loadTraces (ListFetch.badJSON m)).traceList.isErrorDiv = true) ∧
    (∀ m : String,
      (loadTraces (ListFetch.ok (TracesBody.notArr m))).traceList.isErrorDiv = true) := by
  refine ⟨fun m => rfl, fun m => rfl, fun m => ?_, fun m => rfl, fun m => rfl, fun m => rfl⟩
  cases h : jsTruthy (some m) <;> simp [loadTrace, h, ViewerView.isErrorDiv]

/-- C2: the overall status the trace-detail page shows is exactly the pure
function "error if any span has status error, else success" of the trace's
spans: it equals the spec's aggregate-status function and is unchanged
under any replacement of the stored aggregate metadata. -/
theorem claim_C2_displayed_status_pure_function_of_spans (t : Trace) (m : TraceMetadata) :
    (renderTraceMetadata t).statusClass = specAggregateStatus t.spans ∧
    (renderTraceMetadata { t with metadata := m }).statusClass =
      (renderTraceMetadata t).statusClass ∧
    (renderTraceMetadata { t with metadata := m }).statusLabel =
      (renderTraceMetadata t).statusLabel :=
  ⟨rfl, rfl, rfl⟩

/-- C3: on an empty store `list_traces()` yields the empty sequence rather
than an error, and on an empty sequence the dashboard renders the
"No traces yet" placeholder and returns without updating the stats or
rendering any trace items. -/
theorem claim_C3_empty_store_renders_placeholder (st : StoreState)
    (h : st = StoreState.emptyStore) :
    (list_traces st).1 = [] ∧
    loadTraces (ListFetch.ok (TracesBody.arr (list_traces st).1)) =
      { traceList := TraceListView.noTracesPlaceholder, stats := none } := by
  subst h; exact ⟨rfl, rfl⟩

/-- Witness for C3 at the concrete empty store. -/
theorem claim_C3_witness :
    (list_traces StoreState.emptyStore).1 = [] ∧
    loadTraces (ListFetch.ok (TracesBody.arr (list_traces StoreState.emptyStore).1)) =
      { traceList := TraceListView.noTracesPlaceholder, stats := none } :=
  claim_C3_empty_store_renders_placeholder StoreState.emptyStore rfl

/-- C4: both the execution-graph view and the span-list view render the
trace's spans in ascending `start_time` order — the rendered sequence is a
permutation of the trace's spans (so the order spans arrive in the record
is irrelevant) with pairwise nondecreasing start times, and both views map
over that same sorted sequence. -/
theorem claim_C4_views_sorted_by_start_time (t : Trace) :
    List.Perm (sortSpansByStart t.spans) t.spans ∧
    (sortSpansByStart t.spans).Pairwise (fun a b => a.start_time ≤ b.start_time) ∧
    renderExecutionGraph t = (sortSpansByStart t.spans).map renderSpanNode ∧
    renderSpanList t = (sortSpansByStart t.spans).map renderSpanRow :=
  ⟨sortSpansByStart_perm t.spans, sortSpansByStart_pairwise t.spans, rfl, rfl⟩

/-- C5: round-trip — `save(trace)` followed by `load(trace.trace_id)`
returns a record equal in all fields to the original trace. -/
theorem claim_C5_save_load_roundtrip (st : StoreState) (t : Trace) :
    load (save st t) t.trace_id = some t := by
  simp [load, save]

/-- C8: `list_traces()` mutates nothing and two consecutive calls with no
intervening `save` return identical summary sequences. -/
theorem claim_C8_list_traces_idempotent (st : StoreState) :
    (list_traces st).2 = st ∧
    (list_traces ((list_traces st).2)).1 = (list_traces st).1 :=
  ⟨rfl, rfl⟩

/-- C9: every span whose status is not exactly error — a running span
included — is rendered with the success class and the green icon, in both
the graph and the list view; its rendered node and row are identical to
those of the same span with status success, so the three-valued status
collapses to two display states there. -/
theorem claim_C9_non_error_renders_success (s : Span)
    (h : s.status ≠ SpanStatus.error) :
    (renderSpanNode s).statusClass = "success" ∧
    (renderSpanNode s).icon = "🟢" ∧
    (renderSpanRow s).statusClass = "success" ∧
    renderSpanNode s = renderSpanNode { s with status := SpanStatus.success } ∧
    renderSpanRow s = renderSpanRow { s with status := SpanStatus.success } := by
  have hb : (s.status == SpanStatus.error) = false := by
    cases hs : s.status <;> simp_all
  refine ⟨?_, ?_, ?_, ?_, ?_⟩ <;> simp [renderSpanNode, renderSpanRow, hb]

/-- Witness for C9: the concrete running span renders as success/green. -/
theorem claim_C9_witness :
    (renderSpanNode runningSpan).statusClass = "success" ∧
    (renderSpanNode runningSpan).icon = "🟢" ∧
    (renderSpanRow runningSpan).statusClass = "success" ∧
    renderSpanNode runningSpan =
      renderSpanNode { runningSpan with status := SpanStatus.success } ∧
    renderSpanRow runningSpan =
      renderSpanRow { runningSpan with status := SpanStatus.success } :=
  claim_C9_non_error_renders_success runningSpan (by decide)

/-- C10: `showSpanDetail(spanId)` with an identifier matching no span of the
loaded trace returns with the page state unchanged (the modal is not
opened); the modal can only become active when some span of the trace
matches the identifier. -/
theorem claim_C10_show_span_detail_frame (p : ViewerPage) (sid : String) :
    ((∀ s ∈ p.trace.spans, s.span_id ≠ sid) → showSpanDetail p sid = p) ∧
    ((showSpanDetail p sid).modalActive = true →
      p.modalActive = true ∨ ∃ s ∈ p.trace.spans, s.span_id = sid) := by
  constructor
  · intro h
    have hf : p.trace.spans.find? (fun s => s.span_id == sid) = none := by
      apply List.find?_eq_none.mpr
      intro s hs
      simpa using h s hs
    simp [showSpanDetail, hf]
  · intro h
    cases hf : p.trace.spans.find? (fun s => s.span_id == sid) with
    | none => left; simpa [showSpanDetail, hf] using h
    | some s =>
        right
        refine ⟨s, List.mem_of_find?_eq_some hf, ?_⟩
        simpa using List.find?_some hf

/-- Witness for C10: a span id matching nothing leaves the concrete page
untouched. -/
theorem claim_C10_witness : showSpanDetail demoPage "missing-id" = demoPage :=
  (claim_C10_show_span_detail_frame demoPage "missing-id").1 (by decide)

theorem setCtx_eval (f : Nat → CtxState) (c : Nat) (v : CtxState) (c2 : Nat) :
    setCtx f c v c2 = if c2 = c then v else f c2 := rfl

theorem clockInv_step (σ : TracerState) (e : TEvent) (h : ClockInv σ) :
    ClockInv (stepT σ e) := by
  obtain ⟨h1, h2, h3⟩ := h
  cases e with
  | start c dt nm ins =>
      simp only [stepT]
      split
      · refine ⟨?_, ?_, h3⟩
        · intro c2 s hs
          dsimp only at hs ⊢
          rw [setCtx_eval] at hs
          by_cases hc : c2 = c
          · rw [if_pos hc] at hs
            simp only [List.mem_singleton] at hs
            subst hs
            exact Nat.le_refl _
          · rw [if_neg hc] at hs
            exact Nat.le_trans (h1 c2 s hs) (Nat.le_add_right _ _)
        · intro c2 s hs
          dsimp only at hs
          rw [setCtx_eval] at hs
          by_cases hc : c2 = c
          · rw [if_pos hc] at hs
            exact h2 c s hs
          · rw [if_neg hc] at hs
            exact h2 c2 s hs
      · next top rest heq =>
          refine ⟨?_, ?_, h3⟩
          · intro c2 s hs
            dsimp only at hs ⊢
            rw [setCtx_eval] at hs
            by_cases hc : c2 = c
            · rw [if_pos hc] at hs
              rcases List.mem_cons.mp hs with hs | hs
              · subst hs
                exact Nat.le_refl _
              · have : s ∈ (σ.ctxs c).stack := heq ▸ hs
                exact Nat.le_trans (h1 c s this) (Nat.le_add_right _ _)
            · rw [if_neg hc] at hs
              exact Nat.le_trans (h1 c2 s hs) (Nat.le_add_right _ _)
          · intro c2 s hs
            dsimp only at hs
            rw [setCtx_eval] at hs
            by_cases hc : c2 = c
            · rw [if_pos hc] at hs
              exact h2 c s hs
            · rw [if_neg hc] at hs
              exact h2 c2 s hs
  | close c dt st outs =>
      simp only [stepT]
      split
      · refine ⟨?_, h2, h3⟩
        intro c2 s hs
        exact Nat.le_trans (h1 c2 s hs) (Nat.le_add_right _ _)
      · next top heq =>
            have htop : top ∈ (σ.ctxs c).stack := by rw [heq]; exact List.mem_singleton_self top
            refine ⟨?_, ?_, ?_⟩
            · intro c2 s hs
              dsimp only at hs ⊢
              rw [setCtx_eval] at hs
              by_cases hc : c2 = c
              · rw [if_pos hc] at hs
                simp [CtxState.init] at hs
              · rw [if_neg hc] at hs
                exact Nat.le_trans (h1 c2 s hs) (Nat.le_add_right _ _)
            · intro c2 s hs
              dsimp only at hs
              rw [setCtx_eval] at hs
              by_cases hc : c2 = c
              · rw [if_pos hc] at hs
                simp [CtxState.init] at hs
              · rw [if_neg hc] at hs
                exact h2 c2 s hs
            · intro t ht s hs
              dsimp only at ht
              rcases List.mem_append.mp ht with ht | ht
              · exact h3 t ht s hs
              · simp only [List.mem_singleton] at ht
                subst ht
                dsimp only at hs
                rcases List.mem_append.mp hs with hs | hs
                · exact h2 c s hs
                · simp only [List.mem_singleton] at hs
                  subst hs
                  exact ⟨rfl, Nat.le_trans (h1 c top htop) (Nat.le_add_right _ _)⟩
      · next top r rs heq =>
            have htop : top ∈ (σ.ctxs c).stack := by rw [heq]; exact List.mem_cons_self top _
            refine ⟨?_, ?_, h3⟩
            · intro c2 s hs
              dsimp only at hs ⊢
              rw [setCtx_eval] at hs
              by_cases hc : c2 = c
              · rw [if_pos hc] at hs
                have hmem : s ∈ (σ.ctxs c).stack := by
                  rw [heq]; exact List.mem_cons_of_mem top hs
                exact Nat.le_trans (h1 c s hmem) (Nat.le_add_right _ _)
              · rw [if_neg hc] at hs
                exact Nat.le_trans (h1 c2 s hs) (Nat.le_add_right _ _)
            · intro c2 s hs
              dsimp only at hs
              rw [setCtx_eval] at hs
              by_cases hc : c2 = c
              · rw [if_pos hc] at hs
                rcases List.mem_append.mp hs with hs | hs
                · exact h2 c s hs
                · simp only [List.mem_singleton] at hs
                  subst hs
                  exact ⟨rfl, Nat.le_trans (h1 c top htop) (Nat.le_add_right _ _)⟩
              · rw [if_neg hc] at hs
                exact h2 c2 s hs

theorem clockInv_init : ClockInv TracerState.init := by
  refine ⟨?_, ?_, ?_⟩ <;> intros <;> simp_all [TracerState.init, CtxState.init]

theorem clockInv_runT (evs : List TEvent) : ClockInv (runT evs) := by
  suffices h : ∀ σ, ClockInv σ → ClockInv (evs.foldl stepT σ) by
    exact h _ clockInv_init
  induction evs with
  | nil => intro σ h; simpa using h
  | cons e l ih => intro σ h; exact ih _ (clockInv_step σ e h)

theorem projKinds_cons_self (c : Nat) (e : TEvent) (l : List TEvent) (h : e.ctx = c) :
    projKinds c (e :: l) = e.isStart :: projKinds c l := by
  have hb : (e.ctx == c) = true := beq_iff_eq.mpr h
  simp [projKinds, List.filter_cons, hb]

theorem projKinds_cons_ne (c : Nat) (e : TEvent) (l : List TEvent) (h : e.ctx ≠ c) :
    projKinds c (e :: l) = projKinds c l := by
  have hb : (e.ctx == c) = false := beq_eq_false_iff_ne.mpr h
  simp [projKinds, List.filter_cons, hb]

theorem stepT_ctxs_other (σ : TracerState) (e : TEvent) (c2 : Nat) (h : c2 ≠ e.ctx) :
    (stepT σ e).ctxs c2 = σ.ctxs c2 := by
  cases e with
  | start c dt nm ins =>
      simp only [TEvent.ctx] at h
      simp only [stepT]
      split <;> (dsimp only; rw [setCtx_eval, if_neg h])
  | close c dt st outs =>
      simp only [TEvent.ctx] at h
      simp only [stepT]
      split
      · rfl
      · dsimp only; rw [setCtx_eval, if_neg h]
      · dsimp only; rw [setCtx_eval, if_neg h]

theorem stepT_depth_finished (σ : TracerState) (e : TEvent) (l : List Bool) :
    σ.finished.length + finCount (depthOf σ e.ctx) (e.isStart :: l) =
    ((stepT σ e).finished).length + finCount (depthOf (stepT σ e) e.ctx) l := by
  cases e with
  | start c dt nm ins =>
      simp only [TEvent.ctx, TEvent.isStart, stepT]
      split
      · next heq =>
          simp only [depthOf]
          rw [setCtx_eval, if_pos rfl, heq]
          simp [finCount]
      · next top rest heq =>
          simp only [depthOf]
          rw [setCtx_eval, if_pos rfl, heq]
          simp [finCount]
  | close c dt st outs =>
      simp only [TEvent.ctx, TEvent.isStart, stepT]
      split
      · next heq =>
          simp only [depthOf]
          rw [heq]
          simp [finCount]
      · next top heq =>
          simp only [depthOf]
          rw [setCtx_eval, if_pos rfl, heq]
          simp [finCount, CtxState.init]
          omega
      · next top r rs heq =>
          simp only [depthOf]
          rw [setCtx_eval, if_pos rfl, heq]
          simp [finCount]

theorem foldl_finished_length (N : Nat) (evs : List TEvent) :
    ∀ σ : TracerState, (∀ e ∈ evs, e.ctx < N) →
    ((evs.foldl stepT σ).finished).length =
      σ.finished.length + ∑ c in Finset.range N, finCount (depthOf σ c) (projKinds c evs) := by
  induction evs with
  | nil =>
      intro σ h
      simp [projKinds, finCount]
  | cons e l ih =>
      intro σ h
      have hctx : e.ctx < N := h e (List.mem_cons_self e l)
      have hl : ∀ e2 ∈ l, e2.ctx < N := fun e2 he2 => h e2 (List.mem_cons_of_mem e he2)
      rw [List.foldl_cons, ih (stepT σ e) hl]
      have hmem : e.ctx ∈ Finset.range N := Finset.mem_range.mpr hctx
      have hsplit1 :
          ∑ c in Finset.range N, finCount (depthOf σ c) (projKinds c (e :: l)) =
          finCount (depthOf σ e.ctx) (e.isStart :: projKinds e.ctx l) +
            ∑ c in (Finset.range N).erase e.ctx, finCount (depthOf σ c) (projKinds c l) := by
        rw [← Finset.add_sum_erase _ _ hmem, projKinds_cons_self _ _ _ rfl]
        congr 1
        refine Finset.sum_congr rfl ?_
        intro c hc
        rw [projKinds_cons_ne]
        intro hcc
        exact (Finset.mem_erase.mp hc).1 hcc.symm
      have hsplit2 :
          ∑ c in Finset.range N, finCount (depthOf (stepT σ e) c) (projKinds c l) =
          finCount (depthOf (stepT σ e) e.ctx) (projKinds e.ctx l) +
            ∑ c in (Finset.range N).erase e.ctx, finCount (depthOf σ c) (projKinds c l) := by
        rw [← Finset.add_sum_erase _ _ hmem]
        congr 1
        refine Finset.sum_congr rfl ?_
        intro c hc
        have : (stepT σ e).ctxs c = σ.ctxs c :=
          stepT_ctxs_other σ e c (Finset.mem_erase.mp hc).1
        simp [depthOf, this]
      have key := stepT_depth_finished σ e (projKinds e.ctx l)
      rw [hsplit1, hsplit2]
      omega

theorem finCount_of_blockAux (l : List Bool) :
    ∀ d : Nat, blockAux (d + 1) l = true → finCount (d + 1) l = 1 := by
  induction l with
  | nil =>
      intro d h
      simp [blockAux] at h
  | cons b t ih =>
      intro d h
      cases b with
      | true =>
          simp only [blockAux] at h
          simp only [finCount]
          exact ih (d + 1) h
      | false =>
          cases d with
          | zero =>
              simp only [blockAux] at h
              have ht : t = [] := List.isEmpty_iff.mp h
              subst ht
              rfl
          | succ d2 =>
              simp only [blockAux] at h
              simp only [finCount]
              exact ih d2 h

theorem finCount_oneBlock (l : List Bool) (h : oneBlock l = true) : finCount 0 l = 1 := by
  cases l with
  | nil => simp [oneBlock] at h
  | cons b t =>
      cases b with
      | true =>
          simp only [oneBlock] at h
          simp only [finCount]
          exact finCount_of_blockAux t 0 h
      | false => simp [oneBlock] at h

/-- Under per-context stack discipline (one complete block each), a schedule
over contexts `0 .. N-1` finalizes exactly `N` traces. -/
theorem runT_finished_length (N : Nat) (evs : List TEvent)
    (hctx : ∀ e ∈ evs, e.ctx < N)
    (hblocks : ∀ c, c < N → oneBlock (projKinds c evs) = true) :
    ((runT evs).finished).length = N := by
  rw [runT, foldl_finished_length N evs TracerState.init hctx]
  have hz : ∀ c, depthOf TracerState.init c = 0 := fun c => rfl
  have hone : ∀ c ∈ Finset.range N, finCount (depthOf TracerState.init c) (projKinds c evs) = 1 := by
    intro c hc
    rw [hz c]
    exact finCount_oneBlock _ (hblocks c (Finset.mem_range.mp hc))
  rw [Finset.sum_congr rfl hone]
  simp [TracerState.init]

theorem engineInv_init : EngineInv TracerState.init := by
  refine ⟨?_, ?_, ?_, ?_, ?_, ?_, ?_, ?_, ?_, ?_, ?_, ?_, ?_, ?_, ?_, ?_, ?_, ?_⟩ <;>
    intros <;>
    simp_all [TracerState.init, CtxState.init, spanIds, traceIds, ctxSpans,
      finSpanIds, stackChain, closedParentOk]

theorem spanIds_cons_eq (sp : MSpan) (k : CtxState) :
    spanIds ⟨sp :: k.stack, k.closed⟩ = sp.span_id :: spanIds k := by
  simp [spanIds, ctxSpans]

theorem traceIds_cons_eq (sp : MSpan) (k : CtxState) :
    traceIds ⟨sp :: k.stack, k.closed⟩ = sp.trace_id :: traceIds k := by
  simp [traceIds, ctxSpans]

theorem spanIds_mk (st cl : List MSpan) :
    spanIds ⟨st, cl⟩ = (st.map fun s => s.span_id) ++ (cl.map fun s => s.span_id) := by
  simp [spanIds, ctxSpans]

theorem traceIds_mk (st cl : List MSpan) :
    traceIds ⟨st, cl⟩ = (st.map fun s => s.trace_id) ++ (cl.map fun s => s.trace_id) := by
  simp [traceIds, ctxSpans]

theorem spanIds_close_perm (top d : MSpan) (st cl : List MSpan)
    (hsd : d.span_id = top.span_id) :
    List.Perm (spanIds ⟨st, cl ++ [d]⟩) (spanIds ⟨top :: st, cl⟩) := by
  rw [spanIds_mk, spanIds_mk]
  simp only [List.map_append, List.map_cons, List.map_nil, List.cons_append, hsd]
  rw [← List.append_assoc]
  exact List.perm_append_singleton _ _

theorem traceIds_close_perm (top d : MSpan) (st cl : List MSpan)
    (htd : d.trace_id = top.trace_id) :
    List.Perm (traceIds ⟨st, cl ++ [d]⟩) (traceIds ⟨top :: st, cl⟩) := by
  rw [traceIds_mk, traceIds_mk]
  simp only [List.map_append, List.map_cons, List.map_nil, List.cons_append, htd]
  rw [← List.append_assoc]
  exact List.perm_append_singleton _ _

theorem closeSpan_span_id (top : MSpan) (now : Nat) (st : SpanStatus) (outs : String) :
    (closeSpan top now st outs).span_id = top.span_id := rfl

theorem closeSpan_trace_id (top : MSpan) (now : Nat) (st : SpanStatus) (outs : String) :
    (closeSpan top now st outs).trace_id = top.trace_id := rfl

theorem closeSpan_parent (top : MSpan) (now : Nat) (st : SpanStatus) (outs : String) :
    (closeSpan top now st outs).parent_span_id = top.parent_span_id := rfl

theorem finSpanIds_close_perm (top d : MSpan) (cl : List MSpan) (x : Nat)
    (hsd : d.span_id = top.span_id) :
    List.Perm (finSpanIds ⟨x, cl ++ [d]⟩) (spanIds ⟨[top], cl⟩) := by
  simp only [finSpanIds, spanIds_mk, List.map_append, List.map_cons, List.map_nil,
    List.cons_append, List.nil_append, hsd]
  exact List.perm_append_singleton _ _

theorem engineInv_step (σ : TracerState) (e : TEvent) (h : EngineInv σ) :
    EngineInv (stepT σ e) := by
  obtain ⟨b_sid, b_tid, b_ftid, b_fsid, coe, tuni, tcross, tfc, tfin, snodup,
    scross, sfc, sfin, sfnodup, funi, ftree, chn, cpar⟩ := h
  cases e with
  | start c dt nm ins =>
      simp only [stepT]
      split
      · next heq =>
          have hclosed : (σ.ctxs c).closed = [] := coe c heq
          rw [hclosed]
          refine ⟨?_, ?_, ?_, ?_, ?_, ?_, ?_, ?_, ?_, ?_, ?_, ?_, ?_, ?_, ?_, ?_, ?_, ?_⟩
          · -- bound_sid
            intro c2 i hi
            dsimp only at hi ⊢
            rw [setCtx_eval] at hi
            by_cases hc : c2 = c
            · rw [if_pos hc] at hi
              simp [spanIds, ctxSpans] at hi
              omega
            · rw [if_neg hc] at hi
              have := b_sid c2 i hi
              omega
          · -- bound_tid
            intro c2 i hi
            dsimp only at hi ⊢
            rw [setCtx_eval] at hi
            by_cases hc : c2 = c
            · rw [if_pos hc] at hi
              simp [traceIds, ctxSpans] at hi
              omega
            · rw [if_neg hc] at hi
              have := b_tid c2 i hi
              omega
          · -- bound_fin_tid
            intro t ht
            dsimp only at ht ⊢
            have := b_ftid t ht
            omega
          · -- bound_fin_sid
            intro t ht i hi
            dsimp only at ht ⊢
            have := b_fsid t ht i hi
            omega
          · -- closed_of_empty
            intro c2 hst
            dsimp only at hst ⊢
            rw [setCtx_eval] at hst ⊢
            by_cases hc : c2 = c
            · rw [if_pos hc]
            · rw [if_neg hc] at hst ⊢
              exact coe c2 hst
          · -- tid_uniform
            intro c2 i hi j hj
            dsimp only at hi hj
            rw [setCtx_eval] at hi hj
            by_cases hc : c2 = c
            · rw [if_pos hc] at hi hj
              simp [traceIds, ctxSpans] at hi hj
              omega
            · rw [if_neg hc] at hi hj
              exact tuni c2 i hi j hj
          · -- tid_cross
            intro c2 c3 hne i hi
            dsimp only at hi ⊢
            rw [setCtx_eval] at hi ⊢
            by_cases hc2 : c2 = c
            · rw [if_pos hc2] at hi
              have hc3 : ¬ c3 = c := fun hc3 => hne (hc2.trans hc3.symm)
              rw [if_neg hc3]
              simp [traceIds, ctxSpans] at hi
              subst hi
              intro hmem
              have := b_tid c3 _ hmem
              omega
            · rw [if_neg hc2] at hi
              by_cases hc3 : c3 = c
              · rw [if_pos hc3]
                simp [traceIds, ctxSpans]
                have := b_tid c2 i hi
                omega
              · rw [if_neg hc3]
                exact tcross c2 c3 hne i hi
          · -- tid_fin_ctx
            intro c2 i hi t ht
            dsimp only at hi ht
            rw [setCtx_eval] at hi
            by_cases hc : c2 = c
            · rw [if_pos hc] at hi
              simp [traceIds, ctxSpans] at hi
              subst hi
              have := b_ftid t ht
              omega
            · rw [if_neg hc] at hi
              exact tfc c2 i hi t ht
          · -- tid_fin
            exact tfin
          · -- sid_nodup
            intro c2
            dsimp only
            rw [setCtx_eval]
            by_cases hc : c2 = c
            · rw [if_pos hc]
              simp [spanIds, ctxSpans]
            · rw [if_neg hc]
              exact snodup c2
          · -- sid_cross
            intro c2 c3 hne i hi
            dsimp only at hi ⊢
            rw [setCtx_eval] at hi ⊢
            by_cases hc2 : c2 = c
            · rw [if_pos hc2] at hi
              have hc3 : ¬ c3 = c := fun hc3 => hne (hc2.trans hc3.symm)
              rw [if_neg hc3]
              simp [spanIds, ctxSpans] at hi
              subst hi
              intro hmem
              have := b_sid c3 _ hmem
              omega
            · rw [if_neg hc2] at hi
              by_cases hc3 : c3 = c
              · rw [if_pos hc3]
                simp [spanIds, ctxSpans]
                have := b_sid c2 i hi
                omega
              · rw [if_neg hc3]
                exact scross c2 c3 hne i hi
          · -- sid_fin_ctx
            intro c2 i hi t ht
            dsimp only at hi ht
            rw [setCtx_eval] at hi
            by_cases hc : c2 = c
            · rw [if_pos hc] at hi
              simp [spanIds, ctxSpans] at hi
              subst hi
              intro hmem
              have := b_fsid t ht _ hmem
              omega
            · rw [if_neg hc] at hi
              exact sfc c2 i hi t ht
          · -- sid_fin
            exact sfin
          · -- sid_fin_nodup
            exact sfnodup
          · -- fin_uniform
            exact funi
          · -- fin_tree
            exact ftree
          · -- chain
            intro c2
            dsimp only
            rw [setCtx_eval]
            by_cases hc : c2 = c
            · rw [if_pos hc]
              simp [stackChain]
            · rw [if_neg hc]
              exact chn c2
          · -- closed_parents
            intro c2 s hs
            dsimp only at hs ⊢
            rw [setCtx_eval] at hs ⊢
            by_cases hc : c2 = c
            · rw [if_pos hc] at hs
              simp at hs
            · rw [if_neg hc] at hs ⊢
              exact cpar c2 s hs
      · next top rest heq =>
          have htop_mem : top ∈ ctxSpans (σ.ctxs c) := by simp [ctxSpans, heq]
          have htop_sid : top.span_id ∈ spanIds (σ.ctxs c) :=
            List.mem_map_of_mem _ htop_mem
          have htop_tid : top.trace_id ∈ traceIds (σ.ctxs c) :=
            List.mem_map_of_mem _ htop_mem
          rw [show (top :: rest) = (σ.ctxs c).stack from heq.symm]
          refine ⟨?_, ?_, ?_, ?_, ?_, ?_, ?_, ?_, ?_, ?_, ?_, ?_, ?_, ?_, ?_, ?_, ?_, ?_⟩
          · -- bound_sid
            intro c2 i hi
            dsimp only at hi ⊢
            rw [setCtx_eval] at hi
            by_cases hc : c2 = c
            · rw [if_pos hc, spanIds_cons_eq] at hi
              rcases List.mem_cons.mp hi with hi | hi
              · dsimp only at hi; omega
              · have := b_sid c i hi; omega
            · rw [if_neg hc] at hi
              have := b_sid c2 i hi; omega
          · -- bound_tid
            intro c2 i hi
            dsimp only at hi ⊢
            rw [setCtx_eval] at hi
            by_cases hc : c2 = c
            · rw [if_pos hc, traceIds_cons_eq] at hi
              rcases List.mem_cons.mp hi with hi | hi
              · dsimp only at hi
                have := b_tid c top.trace_id htop_tid
                omega
              · have := b_tid c i hi; omega
            · rw [if_neg hc] at hi
              have := b_tid c2 i hi; omega
          · -- bound_fin_tid
            intro t ht
            dsimp only at ht ⊢
            have := b_ftid t ht; omega
          · -- bound_fin_sid
            intro t ht i hi
            dsimp only at ht ⊢
            have := b_fsid t ht i hi; omega
          · -- closed_of_empty
            intro c2 hst
            dsimp only at hst ⊢
            rw [setCtx_eval] at hst ⊢
            by_cases hc : c2 = c
            · rw [if_pos hc] at hst
              exact absurd hst (by simp)
            · rw [if_neg hc] at hst ⊢
              exact coe c2 hst
          · -- tid_uniform
            intro c2 i hi j hj
            dsimp only at hi hj
            rw [setCtx_eval] at hi hj
            by_cases hc : c2 = c
            · rw [if_pos hc, traceIds_cons_eq] at hi hj
              have hall : ∀ x, x ∈ traceIds (σ.ctxs c) → x = top.trace_id :=
                fun x hx => tuni c x hx top.trace_id htop_tid
              have hi2 : i = top.trace_id := by
                rcases List.mem_cons.mp hi with hi | hi
                · simpa using hi
                · exact hall i hi
              have hj2 : j = top.trace_id := by
                rcases List.mem_cons.mp hj with hj | hj
                · simpa using hj
                · exact hall j hj
              rw [hi2, hj2]
            · rw [if_neg hc] at hi hj
              exact tuni c2 i hi j hj
          · -- tid_cross
            intro c2 c3 hne i hi
            dsimp only at hi ⊢
            rw [setCtx_eval] at hi ⊢
            by_cases hc2 : c2 = c
            · rw [if_pos hc2, traceIds_cons_eq] at hi
              have hc3 : ¬ c3 = c := fun hc3 => hne (hc2.trans hc3.symm)
              rw [if_neg hc3]
              rcases List.mem_cons.mp hi with hi | hi
              · have hi2 : i = top.trace_id := by simpa using hi
                rw [hi2]
                exact tcross c c3 (fun hcc => hne (hc2.trans hcc)) top.trace_id htop_tid
              · exact tcross c c3 (fun hcc => hne (hc2.trans hcc)) i hi
            · rw [if_neg hc2] at hi
              by_cases hc3 : c3 = c
              · rw [if_pos hc3, traceIds_cons_eq]
                have hnot := tcross c2 c (fun hcc => hc2 hcc) i hi
                intro hmem
                rcases List.mem_cons.mp hmem with h1 | h1
                · have h2 : i = top.trace_id := by simpa using h1
                  exact hnot (h2 ▸ htop_tid)
                · exact hnot h1
              · rw [if_neg hc3]
                exact tcross c2 c3 hne i hi
          · -- tid_fin_ctx
            intro c2 i hi t ht
            dsimp only at hi ht
            rw [setCtx_eval] at hi
            by_cases hc : c2 = c
            · rw [if_pos hc, traceIds_cons_eq] at hi
              rcases List.mem_cons.mp hi with hi | hi
              · have hi2 : i = top.trace_id := by simpa using hi
                rw [hi2]
                exact tfc c top.trace_id htop_tid t ht
              · exact tfc c i hi t ht
            · rw [if_neg hc] at hi
              exact tfc c2 i hi t ht
          · -- tid_fin
            exact tfin
          · -- sid_nodup
            intro c2
            dsimp only
            rw [setCtx_eval]
            by_cases hc : c2 = c
            · rw [if_pos hc, spanIds_cons_eq]
              refine List.nodup_cons.mpr ⟨?_, snodup c⟩
              intro hmem
              have := b_sid c _ hmem
              dsimp only at this
              omega
            · rw [if_neg hc]
              exact snodup c2
          · -- sid_cross
            intro c2 c3 hne i hi
            dsimp only at hi ⊢
            rw [setCtx_eval] at hi ⊢
            by_cases hc2 : c2 = c
            · rw [if_pos hc2, spanIds_cons_eq] at hi
              have hc3 : ¬ c3 = c := fun hc3 => hne (hc2.trans hc3.symm)
              rw [if_neg hc3]
              rcases List.mem_cons.mp hi with hi | hi
              · have hi2 : i = σ.nextId := by simpa using hi
                subst hi2
                intro hmem
                have := b_sid c3 _ hmem
                omega
              · exact scross c c3 (fun hcc => hne (hc2.trans hcc)) i hi
            · rw [if_neg hc2] at hi
              by_cases hc3 : c3 = c
              · rw [if_pos hc3, spanIds_cons_eq]
                have hnot := scross c2 c (fun hcc => hc2 hcc) i hi
                have hbound := b_sid c2 i hi
                intro hmem
                rcases List.mem_cons.mp hmem with h1 | h1
                · have h2 : i = σ.nextId := by simpa using h1
                  omega
                · exact hnot h1
              · rw [if_neg hc3]
                exact scross c2 c3 hne i hi
          · -- sid_fin_ctx
            intro c2 i hi t ht
            dsimp only at hi ht
            rw [setCtx_eval] at hi
            by_cases hc : c2 = c
            · rw [if_pos hc, spanIds_cons_eq] at hi
              rcases List.mem_cons.mp hi with hi | hi
              · have hi2 : i = σ.nextId := by simpa using hi
                subst hi2
                intro hmem
                have := b_fsid t ht _ hmem
                omega
              · exact sfc c i hi t ht
            · rw [if_neg hc] at hi
              exact sfc c2 i hi t ht
          · -- sid_fin
            exact sfin
          · -- sid_fin_nodup
            exact sfnodup
          · -- fin_uniform
            exact funi
          · -- fin_tree
            exact ftree
          · -- chain
            intro c2
            dsimp only
            rw [setCtx_eval]
            by_cases hc : c2 = c
            · rw [if_pos hc, heq]
              exact ⟨rfl, b_sid c top.span_id htop_sid, by rw [← heq]; exact chn c⟩
            · rw [if_neg hc]
              exact chn c2
          · -- closed_parents
            intro c2 s hs
            dsimp only at hs ⊢
            rw [setCtx_eval] at hs ⊢
            by_cases hc : c2 = c
            · rw [if_pos hc] at hs ⊢
              obtain ⟨pid, hpar, hlt, hpmem⟩ := cpar c s hs
              refine ⟨pid, hpar, hlt, ?_⟩
              rw [spanIds_cons_eq]
              exact List.mem_cons_of_mem _ hpmem
            · rw [if_neg hc] at hs ⊢
              exact cpar c2 s hs
  | close c dt st outs =>
      simp only [stepT]
      split
      · next heq =>
          exact ⟨b_sid, b_tid, b_ftid, b_fsid, coe, tuni, tcross, tfc, tfin, snodup,
            scross, sfc, sfin, sfnodup, funi, ftree, chn, cpar⟩
      · next top heq =>
          have htop_mem : top ∈ ctxSpans (σ.ctxs c) := by simp [ctxSpans, heq]
          have htop_sid : top.span_id ∈ spanIds (σ.ctxs c) :=
            List.mem_map_of_mem _ htop_mem
          have htop_tid : top.trace_id ∈ traceIds (σ.ctxs c) :=
            List.mem_map_of_mem _ htop_mem
          have hk : (⟨[top], (σ.ctxs c).closed⟩ : CtxState) = σ.ctxs c := by
            rw [← heq]
          have hchain := chn c
          rw [heq] at hchain
          have hroot : top.parent_span_id = none := hchain
          have htid_all : ∀ s ∈ (σ.ctxs c).closed, s.trace_id = top.trace_id := by
            intro s hs
            have hmem : s ∈ ctxSpans (σ.ctxs c) := by
              simp [ctxSpans, hs]
            exact tuni c s.trace_id (List.mem_map_of_mem _ hmem) top.trace_id htop_tid
          have hperm : List.Perm
              (finSpanIds ⟨top.trace_id,
                (σ.ctxs c).closed ++ [closeSpan top (σ.clock + dt) st outs]⟩)
              (spanIds ⟨[top], (σ.ctxs c).closed⟩) :=
            finSpanIds_close_perm top _ _ _ rfl
          rw [hk] at hperm
          refine ⟨?_, ?_, ?_, ?_, ?_, ?_, ?_, ?_, ?_, ?_, ?_, ?_, ?_, ?_, ?_, ?_, ?_, ?_⟩
          · -- bound_sid
            intro c2 i hi
            dsimp only at hi ⊢
            rw [setCtx_eval] at hi
            by_cases hc : c2 = c
            · rw [if_pos hc] at hi
              simp [CtxState.init, spanIds, ctxSpans] at hi
            · rw [if_neg hc] at hi
              exact b_sid c2 i hi
          · -- bound_tid
            intro c2 i hi
            dsimp only at hi ⊢
            rw [setCtx_eval] at hi
            by_cases hc : c2 = c
            · rw [if_pos hc] at hi
              simp [CtxState.init, traceIds, ctxSpans] at hi
            · rw [if_neg hc] at hi
              exact b_tid c2 i hi
          · -- bound_fin_tid
            intro t ht
            dsimp only at ht ⊢
            rcases List.mem_append.mp ht with ht | ht
            · exact b_ftid t ht
            · simp only [List.mem_singleton] at ht
              subst ht
              exact b_tid c top.trace_id htop_tid
          · -- bound_fin_sid
            intro t ht i hi
            dsimp only at ht ⊢
            rcases List.mem_append.mp ht with ht | ht
            · exact b_fsid t ht i hi
            · simp only [List.mem_singleton] at ht
              subst ht
              exact b_sid c i (hperm.mem_iff.mp hi)
          · -- closed_of_empty
            intro c2 hst
            dsimp only at hst ⊢
            rw [setCtx_eval] at hst ⊢
            by_cases hc : c2 = c
            · rw [if_pos hc]
              rfl
            · rw [if_neg hc] at hst ⊢
              exact coe c2 hst
          · -- tid_uniform
            intro c2 i hi j hj
            dsimp only at hi hj
            rw [setCtx_eval] at hi hj
            by_cases hc : c2 = c
            · rw [if_pos hc] at hi
              simp [CtxState.init, traceIds, ctxSpans] at hi
            · rw [if_neg hc] at hi hj
              exact tuni c2 i hi j hj
          · -- tid_cross
            intro c2 c3 hne i hi
            dsimp only at hi ⊢
            rw [setCtx_eval] at hi ⊢
            by_cases hc2 : c2 = c
            · rw [if_pos hc2] at hi
              simp [CtxState.init, traceIds, ctxSpans] at hi
            · rw [if_neg hc2] at hi
              by_cases hc3 : c3 = c
              · rw [if_pos hc3]
                simp [CtxState.init, traceIds, ctxSpans]
              · rw [if_neg hc3]
                exact tcross c2 c3 hne i hi
          · -- tid_fin_ctx
            intro c2 i hi t ht
            dsimp only at hi ht
            rw [setCtx_eval] at hi
            by_cases hc : c2 = c
            · rw [if_pos hc] at hi
              simp [CtxState.init, traceIds, ctxSpans] at hi
            · rw [if_neg hc] at hi
              rcases List.mem_append.mp ht with ht | ht
              · exact tfc c2 i hi t ht
              · simp only [List.mem_singleton] at ht
                subst ht
                intro hit
                exact tcross c2 c (fun hcc => hc hcc) i hi (hit ▸ htop_tid)
          · -- tid_fin
            dsimp only
            refine List.pairwise_append.mpr ⟨tfin, by simp, ?_⟩
            intro t ht t2 ht2
            simp only [List.mem_singleton] at ht2
            subst ht2
            exact Ne.symm (tfc c top.trace_id htop_tid t ht)
          · -- sid_nodup
            intro c2
            dsimp only
            rw [setCtx_eval]
            by_cases hc : c2 = c
            · rw [if_pos hc]
              simp [CtxState.init, spanIds, ctxSpans]
            · rw [if_neg hc]
              exact snodup c2
          · -- sid_cross
            intro c2 c3 hne i hi
            dsimp only at hi ⊢
            rw [setCtx_eval] at hi ⊢
            by_cases hc2 : c2 = c
            · rw [if_pos hc2] at hi
              simp [CtxState.init, spanIds, ctxSpans] at hi
            · rw [if_neg hc2] at hi
              by_cases hc3 : c3 = c
              · rw [if_pos hc3]
                simp [CtxState.init, spanIds, ctxSpans]
              · rw [if_neg hc3]
                exact scross c2 c3 hne i hi
          · -- sid_fin_ctx
            intro c2 i hi t ht
            dsimp only at hi ht
            rw [setCtx_eval] at hi
            by_cases hc : c2 = c
            · rw [if_pos hc] at hi
              simp [CtxState.init, spanIds, ctxSpans] at hi
            · rw [if_neg hc] at hi
              rcases List.mem_append.mp ht with ht | ht
              · exact sfc c2 i hi t ht
              · simp only [List.mem_singleton] at ht
                subst ht
                intro hmem
                exact scross c2 c (fun hcc => hc hcc) i hi (hperm.mem_iff.mp hmem)
          · -- sid_fin
            dsimp only
            refine List.pairwise_append.mpr ⟨sfin, by simp, ?_⟩
            intro t ht t2 ht2 i hit
            simp only [List.mem_singleton] at ht2
            subst ht2
            intro hmem
            exact sfc c i (hperm.mem_iff.mp hmem) t ht hit
          · -- sid_fin_nodup
            intro t ht
            dsimp only at ht
            rcases List.mem_append.mp ht with ht | ht
            · exact sfnodup t ht
            · simp only [List.mem_singleton] at ht
              subst ht
              exact hperm.nodup_iff.mpr (snodup c)
          · -- fin_uniform
            intro t ht s hs
            dsimp only at ht
            rcases List.mem_append.mp ht with ht | ht
            · exact funi t ht s hs
            · simp only [List.mem_singleton] at ht
              subst ht
              dsimp only at hs ⊢
              rcases List.mem_append.mp hs with hs | hs
              · exact htid_all s hs
              · simp only [List.mem_singleton] at hs
                subst hs
                rfl
          · -- fin_tree
            intro t ht
            dsimp only at ht
            rcases List.mem_append.mp ht with ht | ht
            · exact ftree t ht
            · simp only [List.mem_singleton] at ht
              subst ht
              dsimp only [isTraceTreeB]
              rw [Bool.and_eq_true]
              refine ⟨?_, ?_⟩
              · have hfil : ((σ.ctxs c).closed.filter
                    (fun s => s.parent_span_id == none)) = [] := by
                  refine List.filter_eq_nil_iff.mpr ?_
                  intro s hs
                  obtain ⟨pid, hp, _, _⟩ := cpar c s hs
                  simp [hp]
                rw [List.filter_append, hfil]
                simp [closeSpan_parent, hroot]
              · refine List.all_eq_true.mpr ?_
                intro s hs
                rcases List.mem_append.mp hs with hs | hs
                · obtain ⟨pid, hp, hlt, hpm⟩ := cpar c s hs
                  simp only [parentOkB, hp]
                  rw [Bool.and_eq_true]
                  refine ⟨by simpa using hlt, ?_⟩
                  refine List.any_eq_true.mpr ?_
                  rw [← hk] at hpm
                  rw [spanIds_mk] at hpm
                  simp only [List.map_cons, List.map_nil, List.cons_append,
                    List.nil_append, List.mem_cons, List.mem_map] at hpm
                  rcases hpm with hpm | ⟨p, hpmem, hpid⟩
                  · refine ⟨_, List.mem_append_right _ (List.mem_singleton_self _), ?_⟩
                    simp [closeSpan_span_id, hpm]
                  · exact ⟨p, List.mem_append_left _ hpmem, by simp [hpid]⟩
                · simp only [List.mem_singleton] at hs
                  subst hs
                  simp [parentOkB, closeSpan_parent, hroot]
          · -- chain
            intro c2
            dsimp only
            rw [setCtx_eval]
            by_cases hc : c2 = c
            · rw [if_pos hc]
              exact trivial
            · rw [if_neg hc]
              exact chn c2
          · -- closed_parents
            intro c2 s hs
            dsimp only at hs ⊢
            rw [setCtx_eval] at hs ⊢
            by_cases hc : c2 = c
            · rw [if_pos hc] at hs
              simp [CtxState.init] at hs
            · rw [if_neg hc] at hs ⊢
              exact cpar c2 s hs
      · next top r rs heq =>
          have htop_mem : top ∈ ctxSpans (σ.ctxs c) := by simp [ctxSpans, heq]
          have htop_sid : top.span_id ∈ spanIds (σ.ctxs c) :=
            List.mem_map_of_mem _ htop_mem
          have htop_tid : top.trace_id ∈ traceIds (σ.ctxs c) :=
            List.mem_map_of_mem _ htop_mem
          have hk : (⟨top :: r :: rs, (σ.ctxs c).closed⟩ : CtxState) = σ.ctxs c := by
            rw [← heq]
          have hchain := chn c
          rw [heq] at hchain
          have hpar_top : top.parent_span_id = some r.span_id := hchain.1
          have hlt_top : r.span_id < top.span_id := hchain.2.1
          have hchain_rest : stackChain (r :: rs) := hchain.2.2
          have hpermS : List.Perm
              (spanIds ⟨r :: rs,
                (σ.ctxs c).closed ++ [closeSpan top (σ.clock + dt) st outs]⟩)
              (spanIds ⟨top :: r :: rs, (σ.ctxs c).closed⟩) :=
            spanIds_close_perm top _ _ _ rfl
          rw [hk] at hpermS
          have hpermT : List.Perm
              (traceIds ⟨r :: rs,
                (σ.ctxs c).closed ++ [closeSpan top (σ.clock + dt) st outs]⟩)
              (traceIds ⟨top :: r :: rs, (σ.ctxs c).closed⟩) :=
            traceIds_close_perm top _ _ _ rfl
          rw [hk] at hpermT
          refine ⟨?_, ?_, ?_, ?_, ?_, ?_, ?_, ?_, ?_, ?_, ?_, ?_, ?_, ?_, ?_, ?_, ?_, ?_⟩
          · -- bound_sid
            intro c2 i hi
            dsimp only at hi ⊢
            rw [setCtx_eval] at hi
            by_cases hc : c2 = c
            · rw [if_pos hc] at hi
              exact b_sid c i (hpermS.mem_iff.mp hi)
            · rw [if_neg hc] at hi
              exact b_sid c2 i hi
          · -- bound_tid
            intro c2 i hi
            dsimp only at hi ⊢
            rw [setCtx_eval] at hi
            by_cases hc : c2 = c
            · rw [if_pos hc] at hi
              exact b_tid c i (hpermT.mem_iff.mp hi)
            · rw [if_neg hc] at hi
              exact b_tid c2 i hi
          · -- bound_fin_tid
            intro t ht
            dsimp only at ht ⊢
            exact b_ftid t ht
          · -- bound_fin_sid
            intro t ht i hi
            dsimp only at ht ⊢
            exact b_fsid t ht i hi
          · -- closed_of_empty
            intro c2 hst
            dsimp only at hst ⊢
            rw [setCtx_eval] at hst ⊢
            by_cases hc : c2 = c
            · rw [if_pos hc] at hst
              exact absurd hst (by simp)
            · rw [if_neg hc] at hst ⊢
              exact coe c2 hst
          · -- tid_uniform
            intro c2 i hi j hj
            dsimp only at hi hj
            rw [setCtx_eval] at hi hj
            by_cases hc : c2 = c
            · rw [if_pos hc] at hi hj
              exact tuni c i (hpermT.mem_iff.mp hi) j (hpermT.mem_iff.mp hj)
            · rw [if_neg hc] at hi hj
              exact tuni c2 i hi j hj
          · -- tid_cross
            intro c2 c3 hne i hi
            dsimp only at hi ⊢
            rw [setCtx_eval] at hi ⊢
            by_cases hc2 : c2 = c
            · rw [if_pos hc2] at hi
              have hc3 : ¬ c3 = c := fun hc3 => hne (hc2.trans hc3.symm)
              rw [if_neg hc3]
              exact tcross c c3 (fun hcc => hne (hc2.trans hcc)) i (hpermT.mem_iff.mp hi)
            · rw [if_neg hc2] at hi
              by_cases hc3 : c3 = c
              · rw [if_pos hc3]
                intro hmem
                exact tcross c2 c (fun hcc => hc2 hcc) i hi (hpermT.mem_iff.mp hmem)
              · rw [if_neg hc3]
                exact tcross c2 c3 hne i hi
          · -- tid_fin_ctx
            intro c2 i hi t ht
            dsimp only at hi ht
            rw [setCtx_eval] at hi
            by_cases hc : c2 = c
            · rw [if_pos hc] at hi
              exact tfc c i (hpermT.mem_iff.mp hi) t ht
            · rw [if_neg hc] at hi
              exact tfc c2 i hi t ht
          · -- tid_fin
            exact tfin
          · -- sid_nodup
            intro c2
            dsimp only
            rw [setCtx_eval]
            by_cases hc : c2 = c
            · rw [if_pos hc]
              exact hpermS.nodup_iff.mpr (snodup c)
            · rw [if_neg hc]
              exact snodup c2
          · -- sid_cross
            intro c2 c3 hne i hi
            dsimp only at hi ⊢
            rw [setCtx_eval] at hi ⊢
            by_cases hc2 : c2 = c
            · rw [if_pos hc2] at hi
              have hc3 : ¬ c3 = c := fun hc3 => hne (hc2.trans hc3.symm)
              rw [if_neg hc3]
              exact scross c c3 (fun hcc => hne (hc2.trans hcc)) i (hpermS.mem_iff.mp hi)
            · rw [if_neg hc2] at hi
              by_cases hc3 : c3 = c
              · rw [if_pos hc3]
                intro hmem
                exact scross c2 c (fun hcc => hc2 hcc) i hi (hpermS.mem_iff.mp hmem)
              · rw [if_neg hc3]
                exact scross c2 c3 hne i hi
          · -- sid_fin_ctx
            intro c2 i hi t ht
            dsimp only at hi ht
            rw [setCtx_eval] at hi
            by_cases hc : c2 = c
            · rw [if_pos hc] at hi
              exact sfc c i (hpermS.mem_iff.mp hi) t ht
            · rw [if_neg hc] at hi
              exact sfc c2 i hi t ht
          · -- sid_fin
            exact sfin
          · -- sid_fin_nodup
            exact sfnodup
          · -- fin_uniform
            exact funi
          · -- fin_tree
            exact ftree
          · -- chain
            intro c2
            dsimp only
            rw [setCtx_eval]
            by_cases hc : c2 = c
            · rw [if_pos hc]
              exact hchain_rest
            · rw [if_neg hc]
              exact chn c2
          · -- closed_parents
            intro c2 s hs
            dsimp only at hs ⊢
            rw [setCtx_eval] at hs ⊢
            by_cases hc : c2 = c
            · rw [if_pos hc] at hs ⊢
              rcases List.mem_append.mp hs with hs | hs
              · obtain ⟨pid, hp, hplt, hpm⟩ := cpar c s hs
                exact ⟨pid, hp, hplt, hpermS.mem_iff.mpr hpm⟩
              · simp only [List.mem_singleton] at hs
                subst hs
                refine ⟨r.span_id, ?_, ?_, ?_⟩
                · rw [closeSpan_parent]
                  exact hpar_top
                · rw [closeSpan_span_id]
                  exact hlt_top
                · refine List.mem_map_of_mem _ ?_
                  simp [ctxSpans]
            · rw [if_neg hc] at hs ⊢
              exact cpar c2 s hs

theorem engineInv_runT (evs : List TEvent) : EngineInv (runT evs) := by
  suffices h : ∀ σ, EngineInv σ → EngineInv (evs.foldl stepT σ) by
    exact h _ engineInv_init
  induction evs with
  | nil => intro σ h; simpa using h
  | cons e l ih => intro σ h; exact ih _ (engineInv_step σ e h)

/-- C7: for every N and every interleaved schedule of instrumentation
events issued by N independent execution contexts, each respecting stack
discipline (its own event subsequence is one complete well-nested block),
the Tracer finalizes exactly N traces with pairwise distinct trace
identifiers; each trace is internally consistent — all its spans carry the
trace's `trace_id`, its span ids are distinct, and its spans form a tree
rooted at one span — and no span (by `span_id`) appears in more than one
trace. -/
theorem claim_C7_concurrent_contexts_isolated (N : Nat) (evs : List TEvent)
    (hctx : ∀ e ∈ evs, e.ctx < N)
    (hblocks : ∀ c, c < N → oneBlock (projKinds c evs) = true) :
    ((runT evs).finished).length = N ∧
    ((runT evs).finished).Pairwise (fun t t2 => t.trace_id ≠ t2.trace_id) ∧
    (∀ t ∈ (runT evs).finished,
      (∀ s ∈ t.spans, s.trace_id = t.trace_id) ∧
      (finSpanIds t).Nodup ∧ isTraceTreeB t.spans = true) ∧
    ((runT evs).finished).Pairwise
      (fun t t2 => ∀ i ∈ finSpanIds t, i ∉ finSpanIds t2) := by
  have hinv := engineInv_runT evs
  exact ⟨runT_finished_length N evs hctx hblocks, hinv.tid_fin,
    fun t ht => ⟨hinv.fin_uniform t ht, hinv.sid_fin_nodup t ht, hinv.fin_tree t ht⟩,
    hinv.sid_fin⟩

/-- Witness for C7: the concrete two-context interleaving yields exactly two
disjoint, internally consistent traces. -/
theorem claim_C7_witness :
    ((runT demoEvents2).finished).length = 2 ∧
    ((runT demoEvents2).finished).Pairwise (fun t t2 => t.trace_id ≠ t2.trace_id) ∧
    (∀ t ∈ (runT demoEvents2).finished,
      (∀ s ∈ t.spans, s.trace_id = t.trace_id) ∧
      (finSpanIds t).Nodup ∧ isTraceTreeB t.spans = true) ∧
    ((runT demoEvents2).finished).Pairwise
      (fun t t2 => ∀ i ∈ finSpanIds t, i ∉ finSpanIds t2) :=
  claim_C7_concurrent_contexts_isolated 2 demoEvents2 (by decide) (by decide)

/-- C6: for every schedule of instrumentation events, every closed span of
every finalized trace has `duration_ms = end_time - start_time` and
`end_time ≥ start_time` — the derived duration is never negative. -/
theorem claim_C6_duration_derived_nonnegative (evs : List TEvent)
    (t : MTrace) (s : MSpan)
    (ht : t ∈ (runT evs).finished) (hs : s ∈ t.spans) :
    s.duration_ms = s.end_time - s.start_time ∧ s.start_time ≤ s.end_time :=
  (clockInv_runT evs).2.2 t ht s hs

/-- Witness for C6 on the concrete two-event schedule. -/
theorem claim_C6_witness :
    demoClosedSpan.duration_ms =
      demoClosedSpan.end_time - demoClosedSpan.start_time ∧
    demoClosedSpan.start_time ≤ demoClosedSpan.end_time :=
  claim_C6_duration_derived_nonnegative demoEvents
    ⟨0, [demoClosedSpan]⟩ demoClosedSpan (by decide) (by decide)

end AgentObs
